import Mathlib

/-!
Verification of the PDF search server (`src/server/src/app.ts`) against its
natural-language specification.

Strings manipulated by the server (file names, extracted text, lines, queries)
are embedded as `List Char`; the JavaScript operations used by the code
(`String.prototype.split`, `trim`, `includes`, node's `path.extname` and
`path.basename`) are embedded as executable functions on `List Char`.
Caller-facing messages, which are only carried around, stay as `String`.
-/

/-- Character strings of the embedded program. -/
abbrev Str := List Char

/-- JS `text.split('\n')` (app.ts line 157): split on newline characters,
keeping empty segments, so that `split` of the empty string is `[[]]` and a
trailing newline yields a trailing empty segment. -/
def splitNl : Str → List Str
  | [] => [[]]
  | c :: cs =>
    match splitNl cs with
    | [] => [[]]
    | h :: t => if c = '\n' then [] :: h :: t else (c :: h) :: t

/-- JS `line.trim() === ''` (app.ts line 157): a line is blank exactly when all
of its characters are whitespace. -/
def isBlank (l : Str) : Bool := l.all (fun c => c.isWhitespace)

/-- JS `haystack.includes(needle)` (app.ts line 99): literal case-sensitive
substring containment. -/
def jsIncludes (haystack needle : Str) : Bool := decide (needle <:+: haystack)

/-- Node `path.extname(file)` for plain file names (no directory separators):
the segment from the last dot to the end, except that a dot in the leading
position (hidden files) or no dot at all gives the empty extension. -/
def pathExtname (f : Str) : Str :=
  match ((List.range f.length).filter fun i => f.getD i ' ' = '.').getLast? with
  | none => []
  | some 0 => []
  | some (i + 1) => f.drop (i + 1)

/-- Node `path.basename(file, ext)` for plain file names: strips `ext` when it
is a proper suffix of the name, and otherwise returns the name unchanged. -/
def pathBasename (f ext : Str) : Str :=
  if ext.isSuffixOf f ∧ ext.length < f.length then f.take (f.length - ext.length) else f

/-- The `Document` interface (app.ts lines 48-53). -/
structure Document where
  id : Str
  title : Str
  body : Str
  lines : List Str
deriving DecidableEq

/-- The constant `extname = ".pdf"` of `loadPDFs` (app.ts line 147). -/
def extname : Str := ['.', 'p', 'd', 'f']

/-- Outcome of the `pdf(dataBuffer)` promise for one file: the extracted text
when it fulfills, or the rejection cause when extraction fails. -/
inductive Extraction where
  | ok (text : Str)
  | failed (cause : String)
deriving DecidableEq

/-- One file discovered by `fs.readdirSync` together with the outcome of the
`pdf(dataBuffer)` text extraction on it. -/
structure FileEntry where
  name : Str
  extraction : Extraction
deriving DecidableEq

/-- The body of the `files.map` callback in `loadPDFs` (app.ts lines 150-169),
as the document it contributes to the index: a file with the `.pdf` extension
whose extraction succeeds yields a `Document` built from the split and
blank-filtered text; a failed extraction is logged by `handleError` and
contributes nothing; a file with another extension contributes nothing. -/
def processFile (f : FileEntry) : Option Document :=
  if pathExtname f.name = extname then
    match f.extraction with
    | Extraction.ok text =>
      some { id := f.name
             title := pathBasename f.name extname
             body := text
             lines := (splitNl text).filter (fun line => !(isBlank line)) }
    | Extraction.failed _ => none
  else none

/-- The corpus produced by `loadPDFs` (app.ts lines 144-175) from the
discovered files: every per-file task resolves, and the documents of the
successful `.pdf` extractions are added to the index. -/
def loadPDFs (files : List FileEntry) : List Document :=
  files.filterMap processFile

/-- The fields registered on the elasticlunr index at construction
(app.ts lines 77-82: `addField('title'); addField('body'); addField('lines')`). -/
def indexFields : List String := ["title", "body", "lines"]

/-- The per-field boost configuration that `performSearch` passes to
`index.search` (app.ts lines 90-95): `body` boosted 2, `lines` boosted 3, and
no entry for `title`. -/
def searchFieldBoosts : List (String × Nat) := [("body", 2), ("lines", 3)]

/-- Modelled from the elasticlunr library (`Configuration.buildUserConfig`):
when the user search config carries a `fields` object, the fields searched are
exactly the configured fields that are registered on the index, each with its
configured boost; registered fields absent from the config are not searched. -/
def effectiveSearchConfig (userFields : List (String × Nat)) (fields : List String) :
    List (String × Nat) :=
  userFields.filter (fun p => fields.contains p.1)

/-- The boost with which `performSearch`'s ranked lookup searches a given
field, or `none` when the field is not searched at all. -/
def effectiveBoost (field : String) : Option Nat :=
  (effectiveSearchConfig searchFieldBoosts indexFields).lookup field

/-- One entry of the `index.search` result list: a document reference and its
relevance score (the `SearchResults` items consumed at app.ts lines 97-100). -/
structure RankedHit where
  ref : Str
  score : ℚ
deriving DecidableEq

/-- The `SearchResultWithLines` interface (app.ts lines 55-59). -/
structure SearchResultWithLines where
  ref : Str
  score : ℚ
  matchingLines : List Str
deriving DecidableEq

/-- elasticlunr's `index.documentStore.getDoc(ref)` (app.ts line 98) over the
store contents: the stored document with the given id, or `none` ( `null` in
the library) when no such document was added. -/
def getDoc (store : List Document) (ref : Str) : Option Document :=
  store.find? (fun d => d.id = ref)

/-- The `results.reduce` body of `performSearch` (app.ts lines 89-103), with
the output of the external `index.search` call passed in as `ranked`. For each
ranked hit in order, the referenced document is fetched from the store, its
stored lines are filtered by literal `includes(searchText)`, and the hit is
kept only when at least one line matches. Accessing `.lines` on a ref missing
from the store is a runtime TypeError, modelled as `Except.error`. -/
def performSearch (store : List Document) (searchText : Str) :
    List RankedHit → Except Unit (List SearchResultWithLines)
  | [] => Except.ok []
  | r :: rs =>
    match getDoc store r.ref with
    | none => Except.error ()
    | some doc =>
      let matchingLines := doc.lines.filter (fun line => jsIncludes line searchText)
      match performSearch store searchText rs with
      | Except.error e => Except.error e
      | Except.ok rest =>
        Except.ok (if matchingLines.length > 0 then
          { ref := r.ref, score := r.score, matchingLines := matchingLines } :: rest
        else rest)

/-- An `Error | string` value passed to `handleError` (app.ts line 113): a JS
`Error` carries a message and possibly a stack trace; a plain string carries
itself. -/
inductive ErrInput where
  | exc (message : String) (stack : Option String)
  | str (s : String)
deriving DecidableEq

/-- The `ErrorResponsePayload` interface (app.ts lines 69-72). -/
structure ErrorPayload where
  error : String
  details : Option String
deriving DecidableEq

/-- JS truthiness of an optional string: `undefined` and the empty string are
falsy, every other string is truthy. -/
def truthyStr : Option String → Bool
  | none => false
  | some s => !(s = "")

/-- The `errorDetails` computation of `handleError` (app.ts lines 119-121):
for an `Error`, the stack trace when in development mode and the stack is
truthy, otherwise the message; for a plain string, the string itself. -/
def errorDetailsOf (error : Option ErrInput) (isDevelopment : Bool) : Option String :=
  match error with
  | none => none
  | some (ErrInput.exc message stack) =>
    if isDevelopment && truthyStr stack then stack else some message
  | some (ErrInput.str s) => some s

/-- The caller-facing payload built by `handleError` (app.ts lines 111-137)
when a response object is supplied: the user-facing message always, and a
`details` field exactly when `errorDetails` is truthy. -/
def handleError (userFacingMessage : String) (error : Option ErrInput)
    (isDevelopment : Bool) : ErrorPayload :=
  let d := errorDetailsOf error isDevelopment
  if truthyStr d then { error := userFacingMessage, details := d }
  else { error := userFacingMessage, details := none }

/-- The user-facing message of the not-ready error (app.ts line 186). -/
def notReadyMsg : String := "Les PDF ne sont pas encore chargés."

/-- The user-facing message of the search-failure error (app.ts line 195). -/
def searchFailMsg : String := "Une erreur est survenue lors de la recherche"

/-- What the `/api/search` route handler sends back: a JSON success payload, a
JSON error payload with its HTTP status, or an exception escaping the handler
to the framework (a synchronous throw from `performSearch` happens while the
argument of `Promise.resolve` is evaluated, so the route's `.catch` never sees
it). -/
inductive ApiResponse where
  | success (results : List SearchResultWithLines)
  | failure (status : Nat) (payload : ErrorPayload)
  | fault
deriving DecidableEq

/-- The `/api/search` route handler (app.ts lines 181-196), with the index
state passed in as the store contents and the external ranked-lookup output:
when `pdfsLoaded` is false, `handleError` immediately sends a 503 payload with
no underlying error; otherwise the `performSearch` results are sent as a
success payload, and a `performSearch` throw escapes to the framework. -/
def searchEndpoint (isDevelopment pdfsLoaded : Bool) (store : List Document)
    (ranked : List RankedHit) (searchText : Str) : ApiResponse :=
  if pdfsLoaded = false then
    ApiResponse.failure 503 (handleError notReadyMsg none isDevelopment)
  else
    match performSearch store searchText ranked with
    | Except.ok results => ApiResponse.success results
    | Except.error _ => ApiResponse.fault

/-- The not-ready response sent at app.ts lines 184-188: status 503 and the
payload `handleError` builds from `notReadyMsg` with no underlying error. -/
def serviceNotReadyResponse : ApiResponse :=
  ApiResponse.failure 503 { error := notReadyMsg, details := none }

/-- The server state read and written by the handlers: the documents added to
the index/store so far, and the `pdfsLoaded` flag (app.ts line 142). -/
structure ServerState where
  docs : List Document
  pdfsLoaded : Bool
deriving DecidableEq

/-- The state at module load: no documents indexed, `pdfsLoaded = false`
(app.ts lines 77-82 and 142). -/
def initialState : ServerState := { docs := [], pdfsLoaded := false }

/-- The state-affecting events of the process: `index.addDoc(doc)` inside a
resolving extraction task (app.ts line 164), the `pdfsLoaded = true` write
after `Promise.all` (app.ts line 174), and a read-only query (app.ts lines
181-196). -/
inductive Event where
  | addDoc (d : Document)
  | finishLoad
  | query (q : Str)
deriving DecidableEq

/-- Effect of one event on the server state: `addDoc` appends the document to
the store, `finishLoad` sets the flag, and a query mutates nothing. -/
def step (s : ServerState) : Event → ServerState
  | Event.addDoc d => { s with docs := s.docs ++ [d] }
  | Event.finishLoad => { s with pdfsLoaded := true }
  | Event.query _ => s

/-- Run of the server from a state through a sequence of events. -/
def run (s : ServerState) : List Event → ServerState
  | [] => s
  | e :: es => run (step s e) es

/-- The event sequences `loadPDFs` (app.ts lines 144-175) can produce for a
given list of discovered files: the documents of the successful `.pdf`
extractions are each added exactly once, in an order left unspecified by the
concurrent task resolution, and `pdfsLoaded` is set only after all of them. -/
def BootstrapTrace (files : List FileEntry) (evs : List Event) : Prop :=
  ∃ docs : List Document, docs.Perm (loadPDFs files) ∧
    evs = docs.map Event.addDoc ++ [Event.finishLoad]

/-- Concrete document used to evaluate the theorems: the corpus of the spec's
Scenario A, file `a.pdf`. -/
def wDocA : Document :=
  { id := "a.pdf".toList
    title := "a".toList
    body := "The quick fox\nJumps high\n".toList
    lines := ["The quick fox".toList, "Jumps high".toList] }

/-- Concrete document used to evaluate the theorems: the corpus of the spec's
Scenario A, file `b.pdf`. -/
def wDocB : Document :=
  { id := "b.pdf".toList
    title := "b".toList
    body := "No match here\n".toList
    lines := ["No match here".toList] }

/-- Concrete store holding the two Scenario A documents. -/
def wStore : List Document := [wDocA, wDocB]

/-- Concrete ranked-lookup output referencing both stored documents. -/
def wRanked : List RankedHit :=
  [{ ref := "a.pdf".toList, score := 2 }, { ref := "b.pdf".toList, score := 1 }]

/-- Concrete query of Scenario A. -/
def wQ : Str := "quick".toList

/-- The search output on the concrete store, ranked list and query: only
`a.pdf` survives the literal line filter. -/
def wOut : List SearchResultWithLines :=
  [{ ref := "a.pdf".toList, score := 2, matchingLines := ["The quick fox".toList] }]

/-- Concrete discovered file whose extraction succeeds with Scenario A's
`a.pdf` text. -/
def wFileA : FileEntry :=
  { name := "a.pdf".toList, extraction := Extraction.ok "The quick fox\nJumps high\n".toList }

/-- Concrete discovered file whose extraction fails. -/
def wFileBad : FileEntry :=
  { name := "bad.pdf".toList, extraction := Extraction.failed "corrupt" }

/-- Concrete discovered file whose extraction succeeds with Scenario A's
`b.pdf` text. -/
def wFileB : FileEntry :=
  { name := "b.pdf".toList, extraction := Extraction.ok "No match here\n".toList }

theorem performSearch_mem_spec (store : List Document) (q : Str) (ranked : List RankedHit) :
    ∀ (out : List SearchResultWithLines),
      performSearch store q ranked = Except.ok out →
      ∀ res ∈ out, ∃ doc, getDoc store res.ref = some doc ∧
        res.matchingLines = doc.lines.filter (fun line => jsIncludes line q) ∧
        res.matchingLines ≠ [] := by
  induction ranked with
  | nil =>
    intro out h res hres
    simp only [performSearch, Except.ok.injEq] at h
    subst h
    simp at hres
  | cons r rs ih =>
    intro out h res hres
    unfold performSearch at h
    cases hdoc : getDoc store r.ref with
    | none => rw [hdoc] at h; simp at h
    | some doc =>
      rw [hdoc] at h
      cases hrest : performSearch store q rs with
      | error e => rw [hrest] at h; simp at h
      | ok rest =>
        rw [hrest] at h
        simp only [Except.ok.injEq] at h
        subst h
        by_cases hlen : (doc.lines.filter (fun line => jsIncludes line q)).length > 0
        · rw [if_pos hlen] at hres
          rcases List.mem_cons.mp hres with hres | hres
          · subst hres
            refine ⟨doc, hdoc, rfl, ?_⟩
            intro hnil
            simp only [] at hnil
            rw [hnil] at hlen
            simp at hlen
          · exact ih rest hrest res hres
        · rw [if_neg hlen] at hres
          exact ih rest hrest res hres

theorem performSearch_refs_sublist (store : List Document) (q : Str) (ranked : List RankedHit) :
    ∀ (out : List SearchResultWithLines),
      performSearch store q ranked = Except.ok out →
      List.Sublist (out.map (fun res => res.ref)) (ranked.map (fun hit => hit.ref)) := by
  induction ranked with
  | nil =>
    intro out h
    simp only [performSearch, Except.ok.injEq] at h
    subst h
    simp
  | cons r rs ih =>
    intro out h
    unfold performSearch at h
    cases hdoc : getDoc store r.ref with
    | none => rw [hdoc] at h; simp at h
    | some doc =>
      rw [hdoc] at h
      cases hrest : performSearch store q rs with
      | error e => rw [hrest] at h; simp at h
      | ok rest =>
        rw [hrest] at h
        simp only [Except.ok.injEq] at h
        subst h
        by_cases hlen : (doc.lines.filter (fun line => jsIncludes line q)).length > 0
        · rw [if_pos hlen]
          simpa using List.Sublist.cons₂ r.ref (ih rest hrest)
        · rw [if_neg hlen]
          exact List.Sublist.cons r.ref (ih rest hrest)

theorem pathExtname_eq_drop (name : Str) (h : pathExtname name = extname) :
    ∃ j, 1 ≤ j ∧ j < name.length ∧ name.drop j = extname := by
  unfold pathExtname at h
  cases hl : ((List.range name.length).filter fun i => name.getD i ' ' = '.').getLast? with
  | none => rw [hl] at h; simp only [] at h; exact absurd h (by decide)
  | some k =>
    rw [hl] at h
    cases k with
    | zero => simp only [] at h; exact absurd h (by decide)
    | succ i =>
      simp only [] at h
      refine ⟨i + 1, Nat.le_add_left 1 i, ?_, h⟩
      by_contra hge
      rw [List.drop_eq_nil_of_le (Nat.le_of_not_lt hge)] at h
      exact absurd h (by decide)

theorem pathBasename_concat (name : Str) (j : Nat) (h1 : 1 ≤ j) (h2 : j < name.length)
    (hdrop : name.drop j = extname) : pathBasename name extname ++ extname = name := by
  have hjle : j ≤ name.length := Nat.le_of_lt h2
  have hlen4 : (name.drop j).length = 4 := by rw [hdrop]; rfl
  rw [List.length_drop] at hlen4
  have hlen : name.length = j + 4 := by omega
  have hsuffix : extname <:+ name := ⟨name.take j, by rw [← hdrop]; exact List.take_append_drop j name⟩
  have hcond : extname.isSuffixOf name ∧ extname.length < name.length := by
    constructor
    · exact List.isSuffixOf_iff_suffix.mpr hsuffix
    · show 4 < name.length
      omega
  unfold pathBasename
  rw [if_pos hcond]
  have htake : name.length - extname.length = j := by
    show name.length - 4 = j
    omega
  rw [htake, ← hdrop]
  exact List.take_append_drop j name

/-- C7: for every file whose text extraction succeeds, the document built by
`loadPDFs` has id equal to the filename, title equal to the filename without
its extension, body equal to the raw extracted text, and lines equal to the
body split on line breaks with blank/whitespace-only lines dropped and the
order of the remaining lines preserved; in particular, lines never contains a
blank entry. -/
theorem c7_document_construction (name text : Str) (hext : pathExtname name = extname) :
    ∃ doc : Document,
      processFile { name := name, extraction := Extraction.ok text } = some doc ∧
      doc.id = name ∧
      doc.title = pathBasename name extname ∧
      doc.title ++ pathExtname name = name ∧
      doc.body = text ∧
      doc.lines = (splitNl text).filter (fun line => !(isBlank line)) ∧
      (∀ l ∈ doc.lines, isBlank l = false) ∧
      List.Sublist doc.lines (splitNl text) := by
  have hproc : processFile { name := name, extraction := Extraction.ok text } =
      some { id := name
             title := pathBasename name extname
             body := text
             lines := (splitNl text).filter (fun line => !(isBlank line)) } := by
    unfold processFile
    rw [if_pos hext]
  refine ⟨_, hproc, rfl, rfl, ?_, rfl, rfl, ?_, ?_⟩
  · show pathBasename name extname ++ pathExtname name = name
    rw [hext]
    obtain ⟨j, h1, h2, hdrop⟩ := pathExtname_eq_drop name hext
    exact pathBasename_concat name j h1 h2 hdrop
  · intro l hl
    simp only [] at hl
    have hmem := (List.mem_filter.mp hl).2
    simpa using hmem
  · exact List.filter_sublist (splitNl text)

/-- C7 witness: the theorem applied to the file `a.pdf` with extracted text
containing a blank line. -/
theorem c7_document_construction_witness :
    ∃ doc : Document,
      processFile { name := "a.pdf".toList, extraction := Extraction.ok "x\n \ny".toList } =
        some doc ∧
      doc.id = "a.pdf".toList ∧
      doc.title = pathBasename "a.pdf".toList extname ∧
      doc.title ++ pathExtname "a.pdf".toList = "a.pdf".toList ∧
      doc.body = "x\n \ny".toList ∧
      doc.lines = (splitNl "x\n \ny".toList).filter (fun line => !(isBlank line)) ∧
      (∀ l ∈ doc.lines, isBlank l = false) ∧
      List.Sublist doc.lines (splitNl "x\n \ny".toList) :=
  c7_document_construction "a.pdf".toList "x\n \ny".toList (by decide)

/-- C2: for every query issued while the readiness flag is false, the endpoint
fails immediately with the ServiceNotReady error payload (status 503, the
not-ready message, no details) and never returns any success payload. -/
theorem c2_not_ready_always_rejected (dev : Bool) (store : List Document)
    (ranked : List RankedHit) (q : Str) :
    searchEndpoint dev false store ranked q = serviceNotReadyResponse ∧
    ∀ results, searchEndpoint dev false store ranked q ≠ ApiResponse.success results := by
  have h1 : searchEndpoint dev false store ranked q = serviceNotReadyResponse := by
    simp [searchEndpoint, handleError, errorDetailsOf, truthyStr, serviceNotReadyResponse]
  refine ⟨h1, fun results h => ?_⟩
  rw [h1] at h
  exact absurd h (by simp [serviceNotReadyResponse])

/-- C3 counterexample: the claim that the ranked lookup queries all three
fields with weights title=1, body=2, lines=3 is false on the code: the boost
configuration passed to the lookup omits `title`, so the effective search
configuration gives `title` no weight at all. -/
theorem c3_title_field_not_queried :
    effectiveBoost "title" = none ∧
    ¬(effectiveBoost "title" = some 1 ∧ effectiveBoost "body" = some 2 ∧
      effectiveBoost "lines" = some 3) := by decide

/-- C3 amended: the ranked lookup queries the index over exactly the fields
body and lines, with weights body=2 and lines=3; the title field, though
registered on the index, is not queried because it is absent from the search
configuration. -/
theorem c3_effective_search_config :
    effectiveSearchConfig searchFieldBoosts indexFields = [("body", 2), ("lines", 3)] ∧
    effectiveBoost "title" = none ∧
    effectiveBoost "body" = some 2 ∧
    effectiveBoost "lines" = some 3 := by decide

/-- C8 counterexample: the claim that the details field is populated only when
development mode is enabled is false on the code: with development mode off,
an underlying error with a non-empty message still populates details. -/
theorem c8_details_populated_without_verbose :
    (handleError searchFailMsg (some (ErrInput.exc "boom" none)) false).details =
      some "boom" := by decide

/-- C8 amended: every caller-facing error payload carries the short
classification message; its details field is populated exactly when the
underlying error yields a truthy detail string, regardless of development
mode; with no underlying error, details is absent; development mode only
selects the stack trace instead of the message as the detail of an Error. -/
theorem c8_error_payload_shape (msg : String) (err : Option ErrInput) (dev : Bool) :
    (handleError msg err dev).error = msg ∧
    ((handleError msg err dev).details = none ∨
      (handleError msg err dev).details = errorDetailsOf err dev) ∧
    ((handleError msg err dev).details ≠ none ↔ truthyStr (errorDetailsOf err dev) = true) ∧
    (err = none → (handleError msg err dev).details = none) ∧
    (∀ m st, err = some (ErrInput.exc m st) → dev = false →
      errorDetailsOf err dev = some m) := by
  simp only [handleError]
  by_cases ht : truthyStr (errorDetailsOf err dev) = true
  · rw [if_pos ht]
    refine ⟨rfl, Or.inr rfl, ?_, ?_, ?_⟩
    · constructor
      · intro _; exact ht
      · intro _ hnone
        cases hd : errorDetailsOf err dev with
        | none => rw [hd] at ht; exact absurd ht (by decide)
        | some s => rw [hd] at hnone; exact absurd hnone (by simp)
    · intro hnone
      subst hnone
      simp [errorDetailsOf, truthyStr] at ht
    · intro m st herr hdev
      subst herr hdev
      simp [errorDetailsOf]
  · rw [if_neg ht]
    refine ⟨rfl, Or.inl rfl, ?_, fun _ => rfl, ?_⟩
    · constructor
      · intro h; exact absurd rfl h
      · intro h; exact absurd h ht
    · intro m st herr hdev
      subst herr hdev
      simp [errorDetailsOf]

/-- C1: for every query q and every result r returned by search, every line in
r.matchingLines contains q as a literal case-sensitive substring and is
non-blank, matchingLines is a non-empty subsequence of the referenced stored
document's lines in original order, and any ranked document with zero lines
containing q is excluded from the output. The store is assumed to contain only
documents with non-blank lines, which is what bootstrap produces (C7). -/
theorem c1_search_results_sound (store : List Document) (ranked : List RankedHit)
    (q : Str) (out : List SearchResultWithLines)
    (hstore : ∀ d ∈ store, ∀ l ∈ d.lines, isBlank l = false)
    (hout : performSearch store q ranked = Except.ok out) :
    ∀ res ∈ out,
      (∀ l ∈ res.matchingLines, jsIncludes l q = true ∧ isBlank l = false) ∧
      res.matchingLines ≠ [] ∧
      (∃ doc, getDoc store res.ref = some doc ∧
        List.Sublist res.matchingLines doc.lines) ∧
      (∀ hit ∈ ranked, ∀ doc, getDoc store hit.ref = some doc →
        doc.lines.filter (fun line => jsIncludes line q) = [] → res.ref ≠ hit.ref) := by
  intro res hres
  obtain ⟨doc, hdoc, hml, hne⟩ := performSearch_mem_spec store q ranked out hout res hres
  refine ⟨?_, hne, ⟨doc, hdoc, ?_⟩, ?_⟩
  · intro l hl
    rw [hml] at hl
    have h2 := List.mem_filter.mp hl
    refine ⟨h2.2, ?_⟩
    exact hstore doc (List.mem_of_find?_eq_some hdoc) l h2.1
  · rw [hml]
    exact List.filter_sublist doc.lines
  · intro hit hhit doc2 hdoc2 hempty heq
    rw [heq] at hdoc
    rw [hdoc] at hdoc2
    injection hdoc2 with hdd
    rw [← hdd] at hempty
    rw [hempty] at hml
    exact hne hml

/-- C1 witness: the theorem applied to the Scenario A store, ranked list and
query, with both hypotheses discharged on the concrete input. -/
theorem c1_search_results_sound_witness :
    (∀ d ∈ wStore, ∀ l ∈ d.lines, isBlank l = false) ∧
    performSearch wStore wQ wRanked = Except.ok wOut ∧
    ∀ res ∈ wOut,
      (∀ l ∈ res.matchingLines, jsIncludes l wQ = true ∧ isBlank l = false) ∧
      res.matchingLines ≠ [] ∧
      (∃ doc, getDoc wStore res.ref = some doc ∧
        List.Sublist res.matchingLines doc.lines) ∧
      (∀ hit ∈ wRanked, ∀ doc, getDoc wStore hit.ref = some doc →
        doc.lines.filter (fun line => jsIncludes line wQ) = [] → res.ref ≠ hit.ref) :=
  ⟨by decide, by rfl,
    c1_search_results_sound wStore wRanked wQ wOut (by decide) (by rfl)⟩

/-- C6: for every query, the documents that survive the literal line filter
appear in the search output in the same relative order in which the ranked
lookup produced them: the output refs form a sublist of the ranked refs. -/
theorem c6_filter_order_stable (store : List Document) (ranked : List RankedHit)
    (q : Str) (out : List SearchResultWithLines)
    (hout : performSearch store q ranked = Except.ok out) :
    List.Sublist (out.map fun res => res.ref) (ranked.map fun hit => hit.ref) :=
  performSearch_refs_sublist store q ranked out hout

/-- C6 witness: the theorem applied to the Scenario A store, ranked list and
query. -/
theorem c6_filter_order_stable_witness :
    performSearch wStore wQ wRanked = Except.ok wOut ∧
    List.Sublist (wOut.map fun res => res.ref) (wRanked.map fun hit => hit.ref) :=
  ⟨by rfl, c6_filter_order_stable wStore wRanked wQ wOut (by rfl)⟩

theorem performSearch_all_filtered_out (store : List Document) (q : Str) :
    ∀ ranked : List RankedHit,
      (∀ hit ∈ ranked, ∃ doc, getDoc store hit.ref = some doc ∧
        doc.lines.filter (fun line => jsIncludes line q) = []) →
      performSearch store q ranked = Except.ok [] := by
  intro ranked
  induction ranked with
  | nil => intro _; rfl
  | cons r rs ih =>
    intro h
    obtain ⟨doc, hdoc, hempty⟩ := h r (List.mem_cons_self r rs)
    unfold performSearch
    rw [hdoc]
    rw [ih fun hit hh => h hit (List.mem_cons_of_mem r hh)]
    simp only []
    rw [hempty]
    simp

/-- C9: once readiness is true, for every query text for which no ranked
document survives the literal line filter (including a ranked lookup that
returns nothing), the endpoint returns a success payload with an empty results
list, not an error payload. -/
theorem c9_no_survivors_empty_success (dev : Bool) (store : List Document)
    (ranked : List RankedHit) (q : Str)
    (h : ∀ hit ∈ ranked, ∃ doc, getDoc store hit.ref = some doc ∧
      doc.lines.filter (fun line => jsIncludes line q) = []) :
    searchEndpoint dev true store ranked q = ApiResponse.success [] := by
  have hps := performSearch_all_filtered_out store q ranked h
  unfold searchEndpoint
  rw [if_neg (by decide), hps]

/-- C9 witness: the theorem applied with a ranked list referencing only the
document with no line containing the query. -/
theorem c9_no_survivors_empty_success_witness :
    (∀ hit ∈ [({ ref := "b.pdf".toList, score := 1 } : RankedHit)],
      ∃ doc, getDoc wStore hit.ref = some doc ∧
        doc.lines.filter (fun line => jsIncludes line wQ) = []) ∧
    searchEndpoint false true wStore [{ ref := "b.pdf".toList, score := 1 }] wQ =
      ApiResponse.success [] :=
  ⟨by decide,
    c9_no_survivors_empty_success false wStore [{ ref := "b.pdf".toList, score := 1 }] wQ
      (by decide)⟩

/-- C10: for every ref appearing in the ranked-lookup output, when the store
contains a document with that id — which bootstrap guarantees, since the same
addDoc call inserts each document into the inverted index and the document
store — the store fetch inside the literal line filter never yields a missing
document, so performSearch never faults. -/
theorem c10_store_fetch_safe (store : List Document) (ranked : List RankedHit) (q : Str)
    (h : ∀ hit ∈ ranked, ∃ d ∈ store, d.id = hit.ref) :
    ∃ out, performSearch store q ranked = Except.ok out := by
  have key : ∀ rk : List RankedHit,
      (∀ hit ∈ rk, ∃ d ∈ store, d.id = hit.ref) →
      ∃ out, performSearch store q rk = Except.ok out := by
    intro rk
    induction rk with
    | nil => intro _; exact ⟨[], rfl⟩
    | cons r rs ih =>
      intro hr
      obtain ⟨d, hd, hid⟩ := hr r (List.mem_cons_self r rs)
      obtain ⟨out, hout⟩ := ih fun hit hh => hr hit (List.mem_cons_of_mem r hh)
      have hsome : (getDoc store r.ref).isSome := by
        unfold getDoc
        rw [List.find?_isSome]
        exact ⟨d, hd, by simp [hid]⟩
      cases hdoc : getDoc store r.ref with
      | none => rw [hdoc] at hsome; simp at hsome
      | some doc =>
        unfold performSearch
        rw [hdoc, hout]
        simp only []
        by_cases hlen : (doc.lines.filter fun line => jsIncludes line q).length > 0
        · exact ⟨_, by rw [if_pos hlen]⟩
        · exact ⟨out, by rw [if_neg hlen]⟩
  exact key ranked h

/-- C10 witness: the theorem applied to the Scenario A store and a ranked list
referencing both stored ids. -/
theorem c10_store_fetch_safe_witness :
    (∀ hit ∈ wRanked, ∃ d ∈ wStore, d.id = hit.ref) ∧
    ∃ out, performSearch wStore wQ wRanked = Except.ok out :=
  ⟨by decide, c10_store_fetch_safe wStore wRanked wQ (by decide)⟩

theorem length_filterMap_all_some {α β : Type} (g : α → Option β) :
    ∀ l : List α, (∀ x ∈ l, ∃ y, g x = some y) → (l.filterMap g).length = l.length := by
  intro l
  induction l with
  | nil => intro _; rfl
  | cons a l ih =>
    intro h
    obtain ⟨y, hy⟩ := h a (List.mem_cons_self a l)
    rw [List.filterMap_cons, hy]
    simp only [List.length_cons]
    rw [ih fun x hx => h x (List.mem_cons_of_mem a hx)]

theorem processFile_ok (f : FileEntry) (hext : pathExtname f.name = extname)
    (hok : ∃ t, f.extraction = Extraction.ok t) :
    ∃ doc, processFile f = some doc ∧ doc.id = f.name := by
  obtain ⟨t, ht⟩ := hok
  unfold processFile
  rw [if_pos hext, ht]
  exact ⟨_, rfl, rfl⟩

/-- C4: for every set of N discovered input files where exactly one fails
extraction, the bootstrap pipeline still processes all other files: the
resulting corpus contains exactly N-1 documents, one per non-failing file, and
the one failure aborts nothing. -/
theorem c4_single_failure_tolerated (A B : List FileEntry) (bad : FileEntry)
    (hA : ∀ f ∈ A, pathExtname f.name = extname ∧ ∃ t, f.extraction = Extraction.ok t)
    (hB : ∀ f ∈ B, pathExtname f.name = extname ∧ ∃ t, f.extraction = Extraction.ok t)
    (hbadext : pathExtname bad.name = extname)
    (hbadfail : ∃ c, bad.extraction = Extraction.failed c) :
    (loadPDFs (A ++ bad :: B)).length + 1 = (A ++ bad :: B).length ∧
    ∀ f ∈ A ++ B, ∃ d ∈ loadPDFs (A ++ bad :: B), d.id = f.name := by
  have hbadnone : processFile bad = none := by
    obtain ⟨c, hc⟩ := hbadfail
    unfold processFile
    rw [if_pos hbadext, hc]
  have hsplit : loadPDFs (A ++ bad :: B) = A.filterMap processFile ++ B.filterMap processFile := by
    unfold loadPDFs
    rw [List.filterMap_append, List.filterMap_cons, hbadnone]
  constructor
  · rw [hsplit]
    rw [List.length_append, List.length_append, List.length_cons]
    rw [length_filterMap_all_some processFile A fun f hf =>
      ⟨(processFile_ok f (hA f hf).1 (hA f hf).2).choose,
       (processFile_ok f (hA f hf).1 (hA f hf).2).choose_spec.1⟩]
    rw [length_filterMap_all_some processFile B fun f hf =>
      ⟨(processFile_ok f (hB f hf).1 (hB f hf).2).choose,
       (processFile_ok f (hB f hf).1 (hB f hf).2).choose_spec.1⟩]
    omega
  · intro f hf
    have hgood : ∃ doc, processFile f = some doc ∧ doc.id = f.name := by
      rcases List.mem_append.mp hf with hfa | hfb
      · exact processFile_ok f (hA f hfa).1 (hA f hfa).2
      · exact processFile_ok f (hB f hfb).1 (hB f hfb).2
    obtain ⟨doc, hdoc, hid⟩ := hgood
    refine ⟨doc, ?_, hid⟩
    rw [hsplit]
    rcases List.mem_append.mp hf with hfa | hfb
    · exact List.mem_append_left _ (List.mem_filterMap.mpr ⟨f, hfa, hdoc⟩)
    · exact List.mem_append_right _ (List.mem_filterMap.mpr ⟨f, hfb, hdoc⟩)

/-- C4 witness: the theorem applied to three concrete files of which exactly
the middle one fails extraction. -/
theorem c4_single_failure_tolerated_witness :
    (loadPDFs ([wFileA] ++ wFileBad :: [wFileB])).length + 1 =
      ([wFileA] ++ wFileBad :: [wFileB]).length ∧
    ∀ f ∈ [wFileA] ++ [wFileB],
      ∃ d ∈ loadPDFs ([wFileA] ++ wFileBad :: [wFileB]), d.id = f.name :=
  c4_single_failure_tolerated [wFileA] [wFileB] wFileBad
    (fun f hf => by
      have hfa : f = wFileA := by simpa using hf
      subst hfa
      exact ⟨by decide, ⟨_, rfl⟩⟩)
    (fun f hf => by
      have hfb : f = wFileB := by simpa using hf
      subst hfb
      exact ⟨by decide, ⟨_, rfl⟩⟩)
    (by decide) ⟨"corrupt", rfl⟩

theorem run_append (l1 l2 : List Event) : ∀ s : ServerState,
    run s (l1 ++ l2) = run (run s l1) l2 := by
  induction l1 with
  | nil => intro s; rfl
  | cons e es ih =>
    intro s
    show run (step s e) (es ++ l2) = _
    exact ih (step s e)

theorem run_pdfsLoaded_mono (evs : List Event) : ∀ s : ServerState,
    s.pdfsLoaded = true → (run s evs).pdfsLoaded = true := by
  induction evs with
  | nil => intro s h; exact h
  | cons e es ih =>
    intro s h
    show (run (step s e) es).pdfsLoaded = true
    apply ih
    cases e with
    | addDoc d => exact h
    | finishLoad => rfl
    | query q => exact h

theorem run_no_finishLoad (evs : List Event) : ∀ s : ServerState,
    Event.finishLoad ∉ evs → (run s evs).pdfsLoaded = s.pdfsLoaded := by
  induction evs with
  | nil => intro s _; rfl
  | cons e es ih =>
    intro s h
    have he : e ≠ Event.finishLoad := fun hh => h (hh ▸ List.mem_cons_self e es)
    have hes : Event.finishLoad ∉ es := fun hh => h (List.mem_cons_of_mem e hh)
    show (run (step s e) es).pdfsLoaded = s.pdfsLoaded
    rw [ih (step s e) hes]
    cases e with
    | addDoc d => rfl
    | finishLoad => exact absurd rfl he
    | query q => rfl

theorem run_addDocs (docs : List Document) : ∀ s : ServerState,
    run s (docs.map Event.addDoc) =
      { docs := s.docs ++ docs, pdfsLoaded := s.pdfsLoaded } := by
  induction docs with
  | nil => intro s; simp [run]
  | cons d ds ih =>
    intro s
    show run (step s (Event.addDoc d)) (ds.map Event.addDoc) = _
    rw [ih (step s (Event.addDoc d))]
    simp [step, List.append_assoc]

/-- C5: the readiness flag starts false, stays false on every run in which the
bootstrap-completion event has not happened, becomes true — with all resulting
documents in the store — after any bootstrap trace, whose completion event
occurs exactly once, never reverts to false, and once it is true the endpoint
never returns the ServiceNotReady response. -/
theorem c5_readiness_one_shot :
    initialState.pdfsLoaded = false ∧
    (∀ evs, Event.finishLoad ∉ evs → (run initialState evs).pdfsLoaded = false) ∧
    (∀ (s : ServerState) (evs : List Event), s.pdfsLoaded = true →
      (run s evs).pdfsLoaded = true) ∧
    (∀ files evs, BootstrapTrace files evs →
      (run initialState evs).pdfsLoaded = true ∧
      (run initialState evs).docs.Perm (loadPDFs files) ∧
      evs.count Event.finishLoad = 1) ∧
    (∀ (dev : Bool) (store : List Document) (ranked : List RankedHit) (q : Str),
      searchEndpoint dev true store ranked q ≠ serviceNotReadyResponse) := by
  refine ⟨rfl, ?_, ?_, ?_, ?_⟩
  · intro evs h
    rw [run_no_finishLoad evs initialState h]
    rfl
  · intro s evs h
    exact run_pdfsLoaded_mono evs s h
  · intro files evs htr
    obtain ⟨docs, hperm, heq⟩ := htr
    subst heq
    rw [run_append, run_addDocs docs initialState]
    have hnotmem : Event.finishLoad ∉ docs.map Event.addDoc := by simp
    refine ⟨rfl, ?_, ?_⟩
    · show (List.nil ++ docs).Perm (loadPDFs files)
      simpa using hperm
    · rw [List.count_append, List.count_eq_zero_of_not_mem hnotmem]
      rfl
  · intro dev store ranked q h
    unfold searchEndpoint at h
    rw [if_neg (by decide)] at h
    cases hres : performSearch store q ranked with
    | ok results => rw [hres] at h; simp [serviceNotReadyResponse] at h
    | error e => rw [hres] at h; simp [serviceNotReadyResponse] at h

/-- C5 witness: the theorem's bootstrap conjunct applied to the concrete
one-file bootstrap trace that adds the Scenario A document and then completes. -/
theorem c5_readiness_one_shot_witness :
    BootstrapTrace [wFileA] [Event.addDoc wDocA, Event.finishLoad] ∧
    (run initialState [Event.addDoc wDocA, Event.finishLoad]).pdfsLoaded = true ∧
    (run initialState [Event.addDoc wDocA, Event.finishLoad]).docs.Perm (loadPDFs [wFileA]) ∧
    [Event.addDoc wDocA, Event.finishLoad].count Event.finishLoad = 1 :=
  have htr : BootstrapTrace [wFileA] [Event.addDoc wDocA, Event.finishLoad] :=
    ⟨[wDocA], by decide, rfl⟩
  ⟨htr, c5_readiness_one_shot.2.2.2.1 [wFileA] [Event.addDoc wDocA, Event.finishLoad] htr⟩
